import Mathlib

/-!
# Verification of the soong-only diff test's artifact-equivalence engine

A shallow embedding of `scripts/soong_only_diff_test.py`: the zip extra-field
digest scanner (`get_local_file_sha256_fields`), the digest-map builder over
archive entries, the two comparison functions (`compare_sha_maps`,
`compare_installed_img_sha_maps`) together with their allowlists, and the
per-product orchestration loop of `main`.

Bytes are modelled as `Nat` (each in `[0, 256)` where it matters), byte
strings as `List Nat`, Python dicts as association lists, and `sys.exit` /
uncaught exceptions as the `Except` error case.
-/

deriving instance DecidableEq for Except

/-! ## Extra-field scanner (`get_local_file_sha256_fields`, inner while loop)

These values are defined in build/soong/zip/zip.go. -/

def SHA_256_HEADER_ID : Nat := 0x4967

def SHA_256_HEADER_SIGNATURE : Nat := 0x9514

/-- Little-endian decoding of two bytes, as done by `struct.unpack('<HH', ...)`. -/
def le16 (b0 b1 : Nat) : Nat := b0 + 256 * b1

/-- The while loop of `get_local_file_sha256_fields` over one entry's
`extra` bytes, with the cursor replaced by the remaining suffix of the
buffer.  Each iteration consumes at least four bytes, so the initial length
of the buffer bounds the number of iterations; `fuel` carries that bound.

The loop reads a 16-bit header id and 16-bit data size; for a block whose
header id is `SHA_256_HEADER_ID` and whose declared size is at least 2, it
slices the payload (Python slicing truncates at the end of the buffer) and
unpacks the first two payload bytes as the internal signature —
`struct.unpack('<H', data_bytes[0:2])` raises `struct.error` when fewer
than two payload bytes remain, which is the `.error` case here.  On a
signature match it returns the rest of the sliced payload and stops;
otherwise it advances by `4 + data_size`. -/
def scanGo : Nat → List Nat → Except Unit (Option (List Nat))
  | fuel+1, b0 :: b1 :: b2 :: b3 :: rest =>
    let hid := le16 b0 b1
    let dsz := le16 b2 b3
    if hid = SHA_256_HEADER_ID ∧ 2 ≤ dsz then
      match rest.take dsz with
      | s0 :: s1 :: _ =>
        if le16 s0 s1 = SHA_256_HEADER_SIGNATURE then .ok (some ((rest.take dsz).drop 2))
        else scanGo fuel (rest.drop dsz)
      | _ => .error ()
    else scanGo fuel (rest.drop dsz)
  | _, _ => .ok none

/-- Scan one entry's raw extra data for an embedded SHA-256 block:
`.ok (some d)` when a digest block with a valid internal signature is found
(`d` is the payload after the 2-byte signature), `.ok none` when the scan
runs off the end of the buffer without a match, `.error ()` when
`struct.unpack` raises on a truncated digest block. -/
def scanShaBlocks (l : List Nat) : Except Unit (Option (List Nat)) := scanGo l.length l

/-! ## Digest map builder (`get_local_file_sha256_fields`, outer loop) -/

/-- One archive member as read from the zip info list: its name, whether it
is a directory, its raw `external_attr` word, its raw extra-field bytes and
its decompressed content (used only to read a symlink's target). -/
structure ZipEntry where
  filename : String
  isDir : Bool
  externalAttr : Nat
  extra : List Nat
  content : List Nat
deriving DecidableEq

/-- Upper 16 bits of `external_attr` are UNIX permissions:
`mode = (external_attr >> 16) & 0xFFFF`. -/
def entryMode (attr : Nat) : Nat := (attr >>> 16) &&& 0xFFFF

/-- `stat.S_ISLNK`: the file-type bits of the mode equal `S_IFLNK`. -/
def S_ISLNK (mode : Nat) : Bool := mode &&& 0xF000 = 0xA000

/-- The `elif`/`else` chain run for an entry whose digest lookup was falsy
(no block found, or an empty extracted digest): a symlink contributes its
read content under its name; a non-symlink with nonzero `external_attr`
contributes nothing; an entry with `external_attr == 0` contributes only
the "sha not found" diagnostic line.  Returns (map rows, warning lines). -/
def symlinkOrWarn (e : ZipEntry) : List (String × List Nat) × List String :=
  if e.externalAttr ≠ 0 then
    if S_ISLNK (entryMode e.externalAttr) then ([(e.filename, e.content)], [])
    else ([], [])
  else ([], [e.filename ++ " sha not found"])

/-- What one non-directory entry contributes given the scanner's result:
`if found_sha_in_file:` is Python truthiness, so only a nonempty digest is
kept under the entry's name; `None` and an empty digest both fall through
to the `elif`/`else` chain of `symlinkOrWarn`. -/
def entryContrib (e : ZipEntry) : Option (List Nat) → List (String × List Nat) × List String
  | some sha => if sha.isEmpty then symlinkOrWarn e else ([(e.filename, sha)], [])
  | none => symlinkOrWarn e

/-- The entry loop of `get_local_file_sha256_fields`: skip directories, scan
each entry's extra field and add its contribution.  A `struct.error`
raised by the scanner propagates out of the whole build (`.error`).
Returns the digest map together with the "sha not found" diagnostic lines
printed to stderr. -/
def buildShaMap : List ZipEntry → Except Unit (List (String × List Nat) × List String)
  | [] => .ok ([], [])
  | e :: es =>
    if e.isDir then buildShaMap es
    else
      match scanShaBlocks e.extra with
      | .error u => .error u
      | .ok found =>
        match buildShaMap es with
        | .error u => .error u
        | .ok (m, w) => .ok ((entryContrib e found).1 ++ m, (entryContrib e found).2 ++ w)

/-! ## Comparison engine (`compare_sha_maps`, `compare_installed_img_sha_maps`) -/

/-- Python dict lookup on an association list (dict keys are unique, so
first match suffices). -/
def alookup {V : Type} (k : String) : List (String × V) → Option V
  | [] => none
  | (k₁, v) :: rest => if k₁ = k then some v else alookup k rest

/-- Ordering used by `sorted(...)`: lexicographic on the character list. -/
def strLe (x y : String) : Prop := ¬ (y.toList < x.toList)

instance (x y : String) : Decidable (strLe x y) := by unfold strLe; infer_instance

def insertSorted (x : String) : List String → List String
  | [] => [x]
  | y :: ys => if strLe x y then x :: y :: ys else y :: insertSorted x ys

def sortStrings : List String → List String
  | [] => []
  | x :: xs => insertSorted x (sortStrings xs)

/-- `sorted(list(a.keys() | b.keys()))`: the deduplicated union of both
maps' keys, sorted. -/
def sortedUnionKeys {V : Type} (a b : List (String × V)) : List String :=
  sortStrings ((a.map Prod.fst ++ b.map Prod.fst).dedup)

/-- How a reconciled divergence is classified: missing from the soong-only
map (`missingInA`), missing from the soong-plus-make map (`missingInB`),
or present in both with different values. -/
inductive ClassKind where
  | missingInA
  | missingInB
  | valueMismatch
deriving DecidableEq

/-- One line of the comparison report: the diverging key, which branch of
the `if`/`elif` chain printed it, and whether the key was allowlisted. -/
structure DivergenceEntry where
  identifier : String
  classification : ClassKind
  allowlisted : Bool
deriving DecidableEq

/-- The `for key in all_keys` loop shared by `compare_sha_maps` and
`compare_installed_img_sha_maps`: `a` is the soong-only map, `b` the
soong-plus-make map; `entries` accumulates the printed report lines and
`allIdentical` the running verdict `all_identical = all_identical and
allowlisted`. -/
def compareLoop {V : Type} [DecidableEq V] (allowlist : List String) (a b : List (String × V)) :
    List String → List DivergenceEntry → Bool → List DivergenceEntry × Bool
  | [], entries, allIdentical => (entries, allIdentical)
  | k :: ks, entries, allIdentical =>
    let allow : Bool := decide (k ∈ allowlist)
    match alookup k a with
    | none =>
      compareLoop allowlist a b ks (entries ++ [⟨k, .missingInA, allow⟩]) (allIdentical && allow)
    | some va =>
      match alookup k b with
      | none =>
        compareLoop allowlist a b ks (entries ++ [⟨k, .missingInB, allow⟩]) (allIdentical && allow)
      | some vb =>
        if va = vb then compareLoop allowlist a b ks entries allIdentical
        else
          compareLoop allowlist a b ks (entries ++ [⟨k, .valueMismatch, allow⟩]) (allIdentical && allow)

/-- Compare two maps under an allowlist: walk the sorted key union,
returning the report lines and the final `all_identical` verdict. -/
def compareMaps {V : Type} [DecidableEq V] (allowlist : List String) (a b : List (String × V)) :
    List DivergenceEntry × Bool :=
  compareLoop allowlist a b (sortedUnionKeys a b) [] true

def SHA_DIFF_ALLOWLIST : List String :=
  ["IMAGES/system.img",
   "IMAGES/userdata.img",
   "IMAGES/vbmeta_system.img",
   "META/apkcerts.txt",
   "META/misc_info.txt",
   "META/vbmeta_digest.txt"]

/-- `compare_sha_maps` (the report path argument is omitted — the report
text is returned instead of written). -/
def compare_sha_maps (a b : List (String × List Nat)) : List DivergenceEntry × Bool :=
  compareMaps SHA_DIFF_ALLOWLIST a b

/-- `_INSTALLED_IMG_FILES_SHA_DIFF_ALLOWLIST` exactly as Python evaluates
it: the source's `"vendor_kernel_ramdisk.img"` and `"vendor_ramdisk.img"`
literals are adjacent with no comma between them, so they concatenate into
a single element. -/
def INSTALLED_IMG_FILES_SHA_DIFF_ALLOWLIST : List String :=
  ["product.img",
   "system_dlkm.img",
   "system_ext.img",
   "system_other.img",
   "system.img",
   "userdata.img",
   "vbmeta.img",
   "vbmeta_system.img",
   "vbmeta_vendor.img",
   "vendor_boot.img",
   "vendor_dlkm.img",
   "vendor.img",
   "vendor_kernel_ramdisk.img" ++ "vendor_ramdisk.img"]

/-- `compare_installed_img_sha_maps`: identical loop over hex-digest
string values with the installed-image allowlist. -/
def compare_installed_img_sha_maps (a b : List (String × String)) :
    List DivergenceEntry × Bool :=
  compareMaps INSTALLED_IMG_FILES_SHA_DIFF_ALLOWLIST a b

/-! ## Encoding of extra-field blocks (for stating parser properties) -/

/-- Serialize one extra-field block: little-endian 16-bit header id and
data size followed by the payload bytes. -/
def encodeBlock (hid dsz : Nat) (payload : List Nat) : List Nat :=
  [hid % 256, (hid / 256) % 256, dsz % 256, (dsz / 256) % 256] ++ payload

/-- A block that is not a digest block and is laid out consistently:
its header id differs from `SHA_256_HEADER_ID`, both 16-bit fields are in
range, and the payload really spans `data_size` bytes. -/
def WellFormedNonDigestBlock (blk : Nat × Nat × List Nat) : Prop :=
  blk.1 ≠ SHA_256_HEADER_ID ∧ blk.1 < 65536 ∧ blk.2.1 < 65536 ∧ blk.2.2.length = blk.2.1

instance (blk : Nat × Nat × List Nat) : Decidable (WellFormedNonDigestBlock blk) := by
  unfold WellFormedNonDigestBlock; infer_instance

def encodeBlocks (blocks : List (Nat × Nat × List Nat)) : List Nat :=
  (blocks.map (fun blk => encodeBlock blk.1 blk.2.1 blk.2.2)).flatten

/-! ## Orchestration (`main`'s per-product loop) -/

/-- What one build-and-locate phase for a product yields: the build command
returned nonzero (`buildFailed`), the build succeeded but the
`*-target_files-*.zip` glob did not match exactly one file so
`get_zip_sha_map` calls `sys.exit` (`artifactMissing`), or both the
target-files digest map and the installed-image digest map were obtained. -/
inductive BuildOutcome where
  | buildFailed
  | artifactMissing
  | built (zipMap : List (String × List Nat)) (imgMap : List (String × String))
deriving DecidableEq

/-- One requested product together with the outcomes of its soong-only and
soong-plus-make build phases. -/
structure ProductRun where
  product : String
  soongOnly : BuildOutcome
  soongPlusMake : BuildOutcome
deriving DecidableEq

/-- The accumulated failure lists of `main`:
`soong_only_build_failed_products`, `soong_plus_make_build_failed_products`
and `target_files_differ_products`. -/
structure RunSummary where
  soongOnlyFailed : List String
  soongPlusMakeFailed : List String
  targetFilesDiffer : List String
deriving DecidableEq

def zipMapOf : BuildOutcome → Option (List (String × List Nat))
  | .built z _ => some z
  | _ => none

def imgMapOf : BuildOutcome → Option (List (String × String))
  | .built _ i => some i
  | _ => none

/-- The body of `main`'s product loop minus the `sys.exit` paths: record a
build failure of either variant, then compare the target-files maps and
the installed-image maps when both sides are truthy (present and, dict
truthiness, nonempty), appending to `target_files_differ_products` on each
failed comparison. -/
def processOnePure (s : RunSummary) (r : ProductRun) : RunSummary :=
  let s₁ :=
    match r.soongOnly with
    | .buildFailed => { s with soongOnlyFailed := s.soongOnlyFailed ++ [r.product] }
    | _ => s
  let s₂ :=
    match r.soongPlusMake with
    | .buildFailed => { s₁ with soongPlusMakeFailed := s₁.soongPlusMakeFailed ++ [r.product] }
    | _ => s₁
  let s₃ :=
    match zipMapOf r.soongOnly, zipMapOf r.soongPlusMake with
    | some z₁, some z₂ =>
      if z₁ ≠ [] ∧ z₂ ≠ [] ∧ (compare_sha_maps z₁ z₂).2 = false then
        { s₂ with targetFilesDiffer := s₂.targetFilesDiffer ++ [r.product] }
      else s₂
    | _, _ => s₂
  match imgMapOf r.soongOnly, imgMapOf r.soongPlusMake with
  | some i₁, some i₂ =>
    if i₁ ≠ [] ∧ i₂ ≠ [] ∧ (compare_installed_img_sha_maps i₁ i₂).2 = false then
      { s₃ with targetFilesDiffer := s₃.targetFilesDiffer ++ [r.product] }
    else s₃
  | _, _ => s₃

/-- One iteration of `main`'s product loop: `get_zip_sha_map` calls
`sys.exit` when the target-files zip is absent although the build claimed
success (`artifactMissing`), which aborts the whole process (`.error`);
otherwise the iteration completes and the summary is updated. -/
def processOne (s : RunSummary) (r : ProductRun) : Except Unit RunSummary :=
  match r.soongOnly with
  | .artifactMissing => .error ()
  | _ =>
    match r.soongPlusMake with
    | .artifactMissing => .error ()
    | _ => .ok (processOnePure s r)

/-- `main`'s loop over all requested products, threading the summary;
a `sys.exit` in any iteration aborts the remaining products. -/
def processProducts : RunSummary → List ProductRun → Except Unit RunSummary
  | s, [] => .ok s
  | s, r :: rs =>
    match processOne s r with
    | .error u => .error u
    | .ok s₁ => processProducts s₁ rs

/-! ## Helper lemmas: the scanner -/

/-- One-step unfolding of `scanGo` on a buffer with at least four bytes. -/
theorem scanGo_cons (fuel b0 b1 b2 b3 : Nat) (rest : List Nat) :
    scanGo (fuel+1) (b0 :: b1 :: b2 :: b3 :: rest) =
      (if le16 b0 b1 = SHA_256_HEADER_ID ∧ 2 ≤ le16 b2 b3 then
        match rest.take (le16 b2 b3) with
        | s0 :: s1 :: _ =>
          if le16 s0 s1 = SHA_256_HEADER_SIGNATURE then
            .ok (some ((rest.take (le16 b2 b3)).drop 2))
          else scanGo fuel (rest.drop (le16 b2 b3))
        | _ => .error ()
      else scanGo fuel (rest.drop (le16 b2 b3))) := rfl

/-- Any fuel at least the buffer length gives the same scan result. -/
theorem scanGo_fuel : ∀ (f₁ f₂ : Nat) (l : List Nat), l.length ≤ f₁ → l.length ≤ f₂ →
    scanGo f₁ l = scanGo f₂ l := by
  intro f₁
  induction f₁ with
  | zero =>
    intro f₂ l h₁ h₂
    have hl : l = [] := List.length_eq_zero.mp (Nat.le_zero.mp h₁)
    subst hl
    cases f₂ <;> rfl
  | succ n ih =>
    intro f₂ l h₁ h₂
    rcases l with _ | ⟨b0, _ | ⟨b1, _ | ⟨b2, _ | ⟨b3, rest⟩⟩⟩⟩
    · cases f₂ <;> rfl
    · cases f₂ <;> rfl
    · cases f₂ <;> rfl
    · cases f₂ <;> rfl
    · simp only [List.length_cons] at h₁ h₂
      rcases f₂ with _ | m
      · omega
      rw [scanGo_cons, scanGo_cons]
      have hb₁ : (rest.drop (le16 b2 b3)).length ≤ n := by
        simp only [List.length_drop]; omega
      have hb₂ : (rest.drop (le16 b2 b3)).length ≤ m := by
        simp only [List.length_drop]; omega
      by_cases hc : le16 b0 b1 = SHA_256_HEADER_ID ∧ 2 ≤ le16 b2 b3
      · simp only [if_pos hc]
        rcases htake : rest.take (le16 b2 b3) with _ | ⟨s0, _ | ⟨s1, tail⟩⟩
        · rfl
        · rfl
        · by_cases hs : le16 s0 s1 = SHA_256_HEADER_SIGNATURE
          · simp only [if_pos hs]
          · simp only [if_neg hs]
            exact ih m _ hb₁ hb₂
      · simp only [if_neg hc]
        exact ih m _ hb₁ hb₂

/-- `scanShaBlocks` computed with any sufficient fuel. -/
theorem scan_eq_go (l : List Nat) (fuel : Nat) (h : l.length ≤ fuel) :
    scanShaBlocks l = scanGo fuel l :=
  scanGo_fuel l.length fuel l le_rfl h

/-- Little-endian byte split round-trips for 16-bit values. -/
theorem le16_encode (n : Nat) (h : n < 65536) : le16 (n % 256) ((n / 256) % 256) = n := by
  unfold le16; omega

/-- The scan steps over a well-formed block whose header id is not the
digest id, continuing on the rest of the buffer. -/
theorem scan_skip_block (hid dsz : Nat) (payload rest : List Nat)
    (h₁ : hid ≠ SHA_256_HEADER_ID) (h₂ : hid < 65536) (h₃ : dsz < 65536)
    (h₄ : payload.length = dsz) :
    scanShaBlocks (encodeBlock hid dsz payload ++ rest) = scanShaBlocks rest := by
  have hform : encodeBlock hid dsz payload ++ rest
      = (hid % 256) :: ((hid / 256) % 256) :: (dsz % 256) :: ((dsz / 256) % 256)
        :: (payload ++ rest) := by
    simp [encodeBlock]
  rw [hform, scan_eq_go _ ((payload.length + rest.length + 3) + 1) (by simp),
    scanGo_cons, le16_encode hid h₂, le16_encode dsz h₃]
  rw [if_neg (fun hc => h₁ hc.1)]
  rw [← h₄, List.drop_left payload rest]
  exact (scan_eq_go rest _ (by omega)).symm

/-- The scan steps over any sequence of well-formed non-digest blocks. -/
theorem scan_skip_blocks (blocks : List (Nat × Nat × List Nat))
    (hwf : ∀ blk ∈ blocks, WellFormedNonDigestBlock blk) (rest : List Nat) :
    scanShaBlocks (encodeBlocks blocks ++ rest) = scanShaBlocks rest := by
  induction blocks with
  | nil => simp [encodeBlocks]
  | cons blk blocks ih =>
    have hblk := hwf blk (by simp)
    obtain ⟨w₁, w₂, w₃, w₄⟩ := hblk
    have : encodeBlocks (blk :: blocks) ++ rest
        = encodeBlock blk.1 blk.2.1 blk.2.2 ++ (encodeBlocks blocks ++ rest) := by
      simp [encodeBlocks]
    rw [this, scan_skip_block _ _ _ _ w₁ w₂ w₃ w₄]
    exact ih (fun b hb => hwf b (by simp [hb]))

/-- The scan accepts a digest block whose payload is the 2-byte internal
signature followed by the digest bytes, returning exactly those digest
bytes and ignoring everything after the block. -/
theorem scan_digest_block (d rest : List Nat) (h : d.length + 2 < 65536) :
    scanShaBlocks (encodeBlock SHA_256_HEADER_ID (d.length + 2) ([0x14, 0x95] ++ d) ++ rest)
      = .ok (some d) := by
  have hform : encodeBlock SHA_256_HEADER_ID (d.length + 2) ([0x14, 0x95] ++ d) ++ rest
      = (SHA_256_HEADER_ID % 256) :: ((SHA_256_HEADER_ID / 256) % 256)
        :: ((d.length + 2) % 256) :: (((d.length + 2) / 256) % 256)
        :: (0x14 :: 0x95 :: (d ++ rest)) := by
    simp [encodeBlock]
  rw [hform, scan_eq_go _ ((d.length + rest.length + 5) + 1) (by simp), scanGo_cons,
    le16_encode SHA_256_HEADER_ID (by unfold SHA_256_HEADER_ID; omega),
    le16_encode (d.length + 2) h]
  rw [if_pos ⟨rfl, by omega⟩]
  have htake : (0x14 :: 0x95 :: (d ++ rest)).take (d.length + 2)
      = 0x14 :: 0x95 :: d := by
    have : (0x14 :: 0x95 :: d).length = d.length + 2 := by simp
    calc (0x14 :: 0x95 :: (d ++ rest)).take (d.length + 2)
        = ((0x14 :: 0x95 :: d) ++ rest).take (0x14 :: 0x95 :: d).length := by
          rw [this]; rfl
      _ = 0x14 :: 0x95 :: d := List.take_left _ _
  rw [htake]
  rfl

/-! ## Helper lemmas: the comparison engine -/

theorem mem_insertSorted (x y : String) (l : List String) :
    y ∈ insertSorted x l ↔ y = x ∨ y ∈ l := by
  induction l with
  | nil => simp [insertSorted]
  | cons z zs ih =>
    by_cases h : strLe x z
    · simp [insertSorted, if_pos h]
    · simp only [insertSorted, if_neg h, List.mem_cons, ih]
      tauto

theorem mem_sortStrings (y : String) (l : List String) : y ∈ sortStrings l ↔ y ∈ l := by
  induction l with
  | nil => simp [sortStrings]
  | cons x xs ih => simp [sortStrings, mem_insertSorted, ih]

theorem mem_sortedUnionKeys {V : Type} (k : String) (a b : List (String × V)) :
    k ∈ sortedUnionKeys a b ↔ k ∈ a.map Prod.fst ∨ k ∈ b.map Prod.fst := by
  unfold sortedUnionKeys
  rw [mem_sortStrings, List.mem_dedup, List.mem_append]

theorem alookup_some_mem {V : Type} (k : String) (l : List (String × V)) (v : V)
    (h : alookup k l = some v) : k ∈ l.map Prod.fst := by
  induction l with
  | nil => simp [alookup] at h
  | cons p rest ih =>
    by_cases hk : p.1 = k
    · simp [hk]
    · rw [show p = (p.1, p.2) from rfl, alookup, if_neg hk] at h
      simp [ih h]

theorem mem_alookup_isSome {V : Type} (k : String) (l : List (String × V))
    (h : k ∈ l.map Prod.fst) : ∃ v, alookup k l = some v := by
  induction l with
  | nil => simp at h
  | cons p rest ih =>
    by_cases hk : p.1 = k
    · exact ⟨p.2, by rw [show p = (p.1, p.2) from rfl, alookup, if_pos hk]⟩
    · rw [show p = (p.1, p.2) from rfl]
      rw [List.map_cons, List.mem_cons] at h
      rcases h with h | h
      · exact absurd h.symm hk
      · obtain ⟨v, hv⟩ := ih h
        exact ⟨v, by rw [alookup, if_neg hk]; exact hv⟩

/-- The divergence entry (if any) the loop body produces for one key. -/
def entryFor {V : Type} [DecidableEq V] (allowlist : List String) (a b : List (String × V))
    (k : String) : Option DivergenceEntry :=
  match alookup k a with
  | none => some ⟨k, .missingInA, decide (k ∈ allowlist)⟩
  | some va =>
    match alookup k b with
    | none => some ⟨k, .missingInB, decide (k ∈ allowlist)⟩
    | some vb => if va = vb then none else some ⟨k, .valueMismatch, decide (k ∈ allowlist)⟩

/-- One step of the comparison loop, phrased through `entryFor`. -/
theorem compareLoop_cons {V : Type} [DecidableEq V] (al : List String) (a b : List (String × V))
    (k : String) (ks : List String) (es : List DivergenceEntry) (ai : Bool) :
    compareLoop al a b (k :: ks) es ai =
      match entryFor al a b k with
      | some e => compareLoop al a b ks (es ++ [e]) (ai && e.allowlisted)
      | none => compareLoop al a b ks es ai := by
  simp only [compareLoop, entryFor]
  split
  · rfl
  · split
    · rfl
    · split
      · rfl
      · rfl

/-- Characterization of the comparison loop: it appends one entry per
diverging key and its verdict is the conjunction of the starting verdict
with the `allowlisted` flags of the produced entries. -/
theorem compareLoop_eq {V : Type} [DecidableEq V] (al : List String) (a b : List (String × V)) :
    ∀ (ks : List String) (es : List DivergenceEntry) (ai : Bool),
    compareLoop al a b ks es ai =
      (es ++ ks.filterMap (entryFor al a b),
       ai && (ks.filterMap (entryFor al a b)).all (fun e => e.allowlisted)) := by
  intro ks
  induction ks with
  | nil => intro es ai; simp [compareLoop]
  | cons k ks ih =>
    intro es ai
    rw [compareLoop_cons]
    rcases hef : entryFor al a b k with _ | e
    · simp only [List.filterMap_cons, hef, ih]
    · simp only [List.filterMap_cons, hef, ih, List.all_cons, List.append_assoc,
        List.singleton_append, Bool.and_assoc]

theorem compareMaps_eq {V : Type} [DecidableEq V] (al : List String) (a b : List (String × V)) :
    compareMaps al a b =
      ((sortedUnionKeys a b).filterMap (entryFor al a b),
       ((sortedUnionKeys a b).filterMap (entryFor al a b)).all (fun e => e.allowlisted)) := by
  unfold compareMaps
  rw [compareLoop_eq]
  simp

/-- Every entry the loop body can produce carries its own key and the
allowlist membership of that key. -/
theorem entryFor_shape {V : Type} [DecidableEq V] (al : List String) (a b : List (String × V))
    (k : String) :
    entryFor al a b k = none ∨
      ∃ c, entryFor al a b k = some ⟨k, c, decide (k ∈ al)⟩ := by
  unfold entryFor
  split
  · exact Or.inr ⟨_, rfl⟩
  · split
    · exact Or.inr ⟨_, rfl⟩
    · split
      · exact Or.inl rfl
      · exact Or.inr ⟨_, rfl⟩

theorem entryFor_some {V : Type} [DecidableEq V] (al : List String) (a b : List (String × V))
    (k : String) (e : DivergenceEntry) (h : entryFor al a b k = some e) :
    e.identifier = k ∧ e.allowlisted = decide (k ∈ al) := by
  rcases entryFor_shape al a b k with hn | ⟨c, hc⟩
  · rw [hn] at h; cases h
  · rw [hc] at h
    cases h
    exact ⟨rfl, rfl⟩

/-! ## Helper lemmas: the builder -/

/-- Unfolding of `buildShaMap` on a non-directory entry whose scan
succeeds. -/
theorem buildShaMap_cons (e : ZipEntry) (es : List ZipEntry) (found : Option (List Nat))
    (hdir : e.isDir = false) (hscan : scanShaBlocks e.extra = .ok found) :
    buildShaMap (e :: es) =
      Except.map (fun r => ((entryContrib e found).1 ++ r.1, (entryContrib e found).2 ++ r.2))
        (buildShaMap es) := by
  rw [buildShaMap, if_neg (by simp [hdir]), hscan]
  rcases h : buildShaMap es with u | ⟨m, w⟩ <;> rfl

/-! ## Helper lemmas: the orchestrator -/

theorem processOnePure_soFailed (s : RunSummary) (r : ProductRun) :
    (processOnePure s r).soongOnlyFailed =
      s.soongOnlyFailed ++
        (match r.soongOnly with | .buildFailed => [r.product] | _ => []) := by
  unfold processOnePure
  rcases r with ⟨p, so, sp⟩
  cases so <;> cases sp <;>
    simp only [zipMapOf, imgMapOf] <;> (repeat' split) <;> simp

theorem processOnePure_spmFailed (s : RunSummary) (r : ProductRun) :
    (processOnePure s r).soongPlusMakeFailed =
      s.soongPlusMakeFailed ++
        (match r.soongPlusMake with | .buildFailed => [r.product] | _ => []) := by
  unfold processOnePure
  rcases r with ⟨p, so, sp⟩
  cases so <;> cases sp <;>
    simp only [zipMapOf, imgMapOf] <;> (repeat' split) <;> simp

theorem foldl_soFailed_mono (rs : List ProductRun) : ∀ (s : RunSummary) (x : String),
    x ∈ s.soongOnlyFailed → x ∈ (rs.foldl processOnePure s).soongOnlyFailed := by
  induction rs with
  | nil => intro s x h; simpa using h
  | cons r rs ih =>
    intro s x h
    rw [List.foldl_cons]
    apply ih
    rw [processOnePure_soFailed]
    exact List.mem_append_left _ h

theorem foldl_spmFailed_mono (rs : List ProductRun) : ∀ (s : RunSummary) (x : String),
    x ∈ s.soongPlusMakeFailed → x ∈ (rs.foldl processOnePure s).soongPlusMakeFailed := by
  induction rs with
  | nil => intro s x h; simpa using h
  | cons r rs ih =>
    intro s x h
    rw [List.foldl_cons]
    apply ih
    rw [processOnePure_spmFailed]
    exact List.mem_append_left _ h

theorem foldl_soFailed_mem (rs : List ProductRun) : ∀ (s : RunSummary) (r : ProductRun),
    r ∈ rs → r.soongOnly = .buildFailed →
    r.product ∈ (rs.foldl processOnePure s).soongOnlyFailed := by
  induction rs with
  | nil => intro s r h; simp at h
  | cons r₀ rs ih =>
    intro s r h hbf
    rw [List.foldl_cons]
    rcases List.mem_cons.mp h with rfl | h
    · apply foldl_soFailed_mono
      rw [processOnePure_soFailed, hbf]
      simp
    · exact ih _ r h hbf

theorem foldl_spmFailed_mem (rs : List ProductRun) : ∀ (s : RunSummary) (r : ProductRun),
    r ∈ rs → r.soongPlusMake = .buildFailed →
    r.product ∈ (rs.foldl processOnePure s).soongPlusMakeFailed := by
  induction rs with
  | nil => intro s r h; simp at h
  | cons r₀ rs ih =>
    intro s r h hbf
    rw [List.foldl_cons]
    rcases List.mem_cons.mp h with rfl | h
    · apply foldl_spmFailed_mono
      rw [processOnePure_spmFailed, hbf]
      simp
    · exact ih _ r h hbf

theorem processOne_ok (s : RunSummary) (r : ProductRun)
    (h₁ : r.soongOnly ≠ .artifactMissing) (h₂ : r.soongPlusMake ≠ .artifactMissing) :
    processOne s r = .ok (processOnePure s r) := by
  unfold processOne
  cases hso : r.soongOnly <;> cases hsp : r.soongPlusMake <;>
    first
    | rfl
    | (exact absurd hso h₁)
    | (exact absurd hsp h₂)

theorem processProducts_ok (rs : List ProductRun) : ∀ (s : RunSummary),
    (∀ r ∈ rs, r.soongOnly ≠ .artifactMissing ∧ r.soongPlusMake ≠ .artifactMissing) →
    processProducts s rs = .ok (rs.foldl processOnePure s) := by
  induction rs with
  | nil => intro s _; rfl
  | cons r rs ih =>
    intro s h
    have hr := h r (by simp)
    rw [List.foldl_cons, processProducts, processOne_ok s r hr.1 hr.2]
    exact ih _ (fun r₁ h₁ => h r₁ (by simp [h₁]))

/-! ## Claims -/

/-- Generic form of C7: the loop's final verdict is true exactly when every
produced entry is allowlisted. -/
theorem compareMaps_passed_iff {V : Type} [DecidableEq V] (al : List String)
    (a b : List (String × V)) :
    ((compareMaps al a b).2 = true ↔ ∀ e ∈ (compareMaps al a b).1, e.allowlisted = true) := by
  rw [compareMaps_eq]
  exact List.all_eq_true

/-- C7: for every pair of digest maps (archive-entry maps with byte values,
installed-image maps with hex-string values) and every allowlist, the
verdict is `true` if and only if every produced divergence entry has
`allowlisted = true`. -/
theorem c7_passed_iff_all_allowlisted :
    (∀ (al : List String) (a b : List (String × List Nat)),
      ((compareMaps al a b).2 = true ↔ ∀ e ∈ (compareMaps al a b).1, e.allowlisted = true)) ∧
    (∀ (al : List String) (a b : List (String × String)),
      ((compareMaps al a b).2 = true ↔ ∀ e ∈ (compareMaps al a b).1, e.allowlisted = true)) :=
  ⟨fun al a b => compareMaps_passed_iff al a b, fun al a b => compareMaps_passed_iff al a b⟩

/-- Generic form of C10: comparing any map against itself produces no
entries and a true verdict. -/
theorem compareMaps_self {V : Type} [DecidableEq V] (al : List String)
    (m : List (String × V)) : compareMaps al m m = ([], true) := by
  rw [compareMaps_eq]
  have hnil : (sortedUnionKeys m m).filterMap (entryFor al m m) = [] := by
    rw [List.filterMap_eq_nil_iff]
    intro k hk
    have hmem : k ∈ m.map Prod.fst := by
      rcases (mem_sortedUnionKeys k m m).mp hk with h | h <;> exact h
    obtain ⟨v, hv⟩ := mem_alookup_isSome k m hmem
    simp [entryFor, hv]
  rw [hnil]
  rfl

/-- C10: comparing a non-empty digest map against itself, under any
allowlist, yields zero divergence entries and a passing verdict — for
archive-entry maps and for installed-image maps. -/
theorem c10_self_compare_no_divergence :
    (∀ (al : List String) (m : List (String × List Nat)), m ≠ [] →
      compareMaps al m m = ([], true)) ∧
    (∀ (al : List String) (m : List (String × String)), m ≠ [] →
      compareMaps al m m = ([], true)) :=
  ⟨fun al m _ => compareMaps_self al m, fun al m _ => compareMaps_self al m⟩

theorem c10_self_compare_no_divergence_witness :
    (([("a", [1])] : List (String × List Nat)) ≠ [] ∧
      compareMaps [] [("a", [1])] [("a", [1])] = ([], true)) ∧
    (([("b", "x")] : List (String × String)) ≠ [] ∧
      compareMaps [] [("b", "x")] [("b", "x")] = ([], true)) :=
  ⟨⟨by decide, c10_self_compare_no_divergence.1 [] [("a", [1])] (by decide)⟩,
   ⟨by decide, c10_self_compare_no_divergence.2 [] [("b", "x")] (by decide)⟩⟩

/-- C2: the installed-image allowlist contains neither "vendor_ramdisk.img"
nor "vendor_kernel_ramdisk.img" — only their concatenation (the source
lists the two string literals with no comma between them) — so any
divergence entry for either real image name is not allowlisted and forces
the verdict to false. -/
theorem c2_installed_allowlist_concat :
    "vendor_ramdisk.img" ∉ INSTALLED_IMG_FILES_SHA_DIFF_ALLOWLIST ∧
    "vendor_kernel_ramdisk.img" ∉ INSTALLED_IMG_FILES_SHA_DIFF_ALLOWLIST ∧
    "vendor_kernel_ramdisk.imgvendor_ramdisk.img" ∈ INSTALLED_IMG_FILES_SHA_DIFF_ALLOWLIST ∧
    ∀ (a b : List (String × String)) (e : DivergenceEntry),
      e ∈ (compare_installed_img_sha_maps a b).1 →
      (e.identifier = "vendor_ramdisk.img" ∨ e.identifier = "vendor_kernel_ramdisk.img") →
      e.allowlisted = false ∧ (compare_installed_img_sha_maps a b).2 = false := by
  refine ⟨by decide, by decide, by decide, ?_⟩
  intro a b e hmem hid
  have hcm := compareMaps_eq INSTALLED_IMG_FILES_SHA_DIFF_ALLOWLIST a b
  have hmem' : e ∈ (sortedUnionKeys a b).filterMap
      (entryFor INSTALLED_IMG_FILES_SHA_DIFF_ALLOWLIST a b) := by
    have h1 : (compare_installed_img_sha_maps a b).1 = (sortedUnionKeys a b).filterMap
        (entryFor INSTALLED_IMG_FILES_SHA_DIFF_ALLOWLIST a b) := by
      unfold compare_installed_img_sha_maps
      rw [hcm]
    rw [h1] at hmem
    exact hmem
  obtain ⟨k, hk, hfk⟩ := List.mem_filterMap.mp hmem'
  obtain ⟨hid_eq, hallow⟩ :=
    entryFor_some INSTALLED_IMG_FILES_SHA_DIFF_ALLOWLIST a b k e hfk
  have hkval : k = "vendor_ramdisk.img" ∨ k = "vendor_kernel_ramdisk.img" := by
    rcases hid with h | h
    · exact Or.inl (hid_eq.symm.trans h)
    · exact Or.inr (hid_eq.symm.trans h)
  have hfalse : e.allowlisted = false := by
    rw [hallow]
    rcases hkval with rfl | rfl <;> decide
  refine ⟨hfalse, ?_⟩
  have h2 : (compare_installed_img_sha_maps a b).2 = ((sortedUnionKeys a b).filterMap
      (entryFor INSTALLED_IMG_FILES_SHA_DIFF_ALLOWLIST a b)).all (fun e => e.allowlisted) := by
    unfold compare_installed_img_sha_maps
    rw [hcm]
  rw [h2]
  cases hall : ((sortedUnionKeys a b).filterMap
      (entryFor INSTALLED_IMG_FILES_SHA_DIFF_ALLOWLIST a b)).all (fun e => e.allowlisted)
  · rfl
  · exact absurd (List.all_eq_true.mp hall e hmem') (by simp [hfalse])

theorem c2_installed_allowlist_concat_witness :
    (⟨"vendor_ramdisk.img", ClassKind.missingInA, false⟩ : DivergenceEntry).allowlisted = false ∧
    (compare_installed_img_sha_maps [] [("vendor_ramdisk.img", "x")]).2 = false :=
  c2_installed_allowlist_concat.2.2.2 [] [("vendor_ramdisk.img", "x")]
    ⟨"vendor_ramdisk.img", ClassKind.missingInA, false⟩ (by decide) (Or.inl rfl)

/-- C4 counterexample: the maps store untagged raw bytes, so a value parsed
from a digest block and a value read as a symlink target are
indistinguishable.  Entry "x" of the first archive carries a digest block
with 32 bytes `0xAB`; entry "x" of the second archive is a symlink (mode
0o120777) whose target is those same 32 bytes.  Both builders produce the
same map row, and comparing the two maps yields zero divergence entries
and a passing verdict — no `ValueMismatch` is produced. -/
theorem c4_digest_symlink_equal_bytes_no_mismatch :
    buildShaMap [⟨"x", false, 0,
        [0x67, 0x49, 0x22, 0x00, 0x14, 0x95] ++ List.replicate 32 0xAB, []⟩]
      = .ok ([("x", List.replicate 32 0xAB)], []) ∧
    buildShaMap [⟨"x", false, 0xA1FF0000, [], List.replicate 32 0xAB⟩]
      = .ok ([("x", List.replicate 32 0xAB)], []) ∧
    compare_sha_maps [("x", List.replicate 32 0xAB)] [("x", List.replicate 32 0xAB)]
      = ([], true) :=
  ⟨by decide, by decide, by decide⟩

/-- C4 (amended): for every key present in both maps the comparison is
byte-exact on the stored value: a `ValueMismatch` entry is produced exactly
when the two byte values differ, and when they are byte-identical —
regardless of whether they came from a digest block or a symlink target —
no entry is produced for that key. -/
theorem c4_value_comparison_byte_exact (al : List String) (a b : List (String × List Nat))
    (k : String) (va vb : List Nat) (ha : alookup k a = some va) (hb : alookup k b = some vb) :
    (va ≠ vb →
      (⟨k, ClassKind.valueMismatch, decide (k ∈ al)⟩ : DivergenceEntry)
        ∈ (compareMaps al a b).1) ∧
    (va = vb → ∀ e ∈ (compareMaps al a b).1, e.identifier ≠ k) := by
  constructor
  · intro hne
    rw [compareMaps_eq]
    apply List.mem_filterMap.mpr
    refine ⟨k, ?_, ?_⟩
    · exact (mem_sortedUnionKeys k a b).mpr (Or.inl (alookup_some_mem k a va ha))
    · simp [entryFor, ha, hb, hne]
  · intro heq e hmem hid
    rw [compareMaps_eq] at hmem
    have hmem' : e ∈ (sortedUnionKeys a b).filterMap (entryFor al a b) := hmem
    obtain ⟨k₁, hk₁, hf₁⟩ := List.mem_filterMap.mp hmem'
    have hids := (entryFor_some al a b k₁ e hf₁).1
    have hkk : k₁ = k := by rw [← hids, hid]
    subst hkk
    subst heq
    simp [entryFor, ha, hb] at hf₁

theorem c4_value_comparison_byte_exact_witness :
    (⟨"x", ClassKind.valueMismatch, false⟩ : DivergenceEntry)
      ∈ (compareMaps [] [("x", [1])] [("x", [2])]).1 :=
  (c4_value_comparison_byte_exact [] [("x", [1])] [("x", [2])] "x" [1] [2]
    (by decide) (by decide)).1 (by decide)

/-- C3 counterexample: the four bytes `[0x67,0x49,0x02,0x00]` declare a
digest block of size 2 with no payload bytes remaining; the parser slices
an empty payload and `struct.unpack('<H', ...)` raises instead of stopping. -/
theorem c3_truncated_digest_header_errors :
    scanShaBlocks [0x67, 0x49, 0x02, 0x00] = .error () := by decide

/-- C3 (amended): when fewer than 4 bytes remain at the cursor the scan
stops normally with no digest.  The parser does not, however, check that
`data_size` payload bytes remain: a digest-header block with declared size
at least 2 but fewer than 2 remaining payload bytes raises a struct error
(aborting the run for that archive) rather than stopping, and when at
least 2 truncated payload bytes remain it extracts a digest shorter than
declared. -/
theorem c3_parser_truncation_behavior :
    (∀ l : List Nat, l.length < 4 → scanShaBlocks l = .ok none) ∧
    scanShaBlocks [0x67, 0x49, 0x02, 0x00] = .error () ∧
    scanShaBlocks [0x67, 0x49, 0x22, 0x00, 0x14, 0x95, 0xAB] = .ok (some [0xAB]) := by
  refine ⟨?_, by decide, by decide⟩
  intro l hl
  rcases l with _ | ⟨a, _ | ⟨b, _ | ⟨c, _ | ⟨d, t⟩⟩⟩⟩
  · rfl
  · rfl
  · rfl
  · rfl
  · simp only [List.length_cons] at hl
    omega

theorem c3_parser_truncation_behavior_witness :
    scanShaBlocks [0xFF] = .ok none :=
  c3_parser_truncation_behavior.1 [0xFF] (by decide)

/-- C6: for any entry whose extra field is a sequence of well-formed
non-digest blocks followed by a well-formed digest block (header id
`0x4967`, declared size 34, payload the little-endian signature `0x9514`
followed by 32 digest bytes) followed by arbitrary further bytes, the
scanner returns exactly those 32 digest bytes, stopping at that block. -/
theorem c6_wellformed_digest_block_recovered (blocks : List (Nat × Nat × List Nat))
    (hwf : ∀ blk ∈ blocks, WellFormedNonDigestBlock blk) (d : List Nat) (hd : d.length = 32)
    (suffix : List Nat) :
    scanShaBlocks (encodeBlocks blocks ++
        (encodeBlock SHA_256_HEADER_ID 34 ([0x14, 0x95] ++ d) ++ suffix)) = .ok (some d) := by
  rw [scan_skip_blocks blocks hwf]
  have h34 : d.length + 2 = 34 := by omega
  rw [← h34]
  exact scan_digest_block d suffix (by omega)

theorem c6_wellformed_digest_block_recovered_witness :
    scanShaBlocks (encodeBlocks [(0x1234, 3, [7, 7, 7])] ++
        (encodeBlock SHA_256_HEADER_ID 34 ([0x14, 0x95] ++ List.replicate 32 5) ++ [9, 9]))
      = .ok (some (List.replicate 32 5)) :=
  c6_wellformed_digest_block_recovered [(0x1234, 3, [7, 7, 7])] (by decide)
    (List.replicate 32 5) (by decide) [9, 9]

/-- C8: an entry whose extra field is exactly
`[0x67,0x49,0x02,0x00,0x14,0x95]` (digest header, declared size 2, payload
only the signature) yields the empty digest, which is falsy in Python; for
a non-symlink entry no key is inserted — the resulting map equals the map
built from the remaining entries alone. -/
theorem c8_empty_digest_entry_excluded (name : String) (attr : Nat) (content : List Nat)
    (es : List ZipEntry) (hlnk : S_ISLNK (entryMode attr) = false) :
    scanShaBlocks [0x67, 0x49, 0x02, 0x00, 0x14, 0x95] = .ok (some []) ∧
    Except.map Prod.fst
        (buildShaMap (⟨name, false, attr, [0x67, 0x49, 0x02, 0x00, 0x14, 0x95], content⟩ :: es))
      = Except.map Prod.fst (buildShaMap es) := by
  refine ⟨by decide, ?_⟩
  rw [buildShaMap_cons ⟨name, false, attr, [0x67, 0x49, 0x02, 0x00, 0x14, 0x95], content⟩
    es (some []) rfl
    (show scanShaBlocks [0x67, 0x49, 0x02, 0x00, 0x14, 0x95] = Except.ok (some []) by decide)]
  have hcontrib :
      (entryContrib ⟨name, false, attr, [0x67, 0x49, 0x02, 0x00, 0x14, 0x95], content⟩
        (some [])).1 = [] := by
    unfold entryContrib symlinkOrWarn
    by_cases hz : attr = 0
    · simp [hz]
    · simp [hz, hlnk]
  rcases h : buildShaMap es with u | ⟨m, w⟩
  · rfl
  · simp [h, Except.map, hcontrib]

theorem c8_empty_digest_entry_excluded_witness :
    S_ISLNK (entryMode 0x81A40000) = false ∧
    Except.map Prod.fst
        (buildShaMap [⟨"f", false, 0x81A40000, [0x67, 0x49, 0x02, 0x00, 0x14, 0x95], []⟩])
      = Except.map Prod.fst (buildShaMap []) :=
  ⟨by decide, (c8_empty_digest_entry_excluded "f" 0x81A40000 [] [] (by decide)).2⟩

/-- C9: when the scan reaches a digest block with declared size 2 and a
valid signature, it stops there with the empty digest — any well-formed
digest block later in the buffer is never examined — and the entry is then
resolved by the symlink check or excluded as not-found
(`symlinkOrWarn`), never receiving the later digest. -/
theorem c9_empty_digest_stops_scan (blocks : List (Nat × Nat × List Nat))
    (hwf : ∀ blk ∈ blocks, WellFormedNonDigestBlock blk) (suffix : List Nat)
    (e : ZipEntry) (es : List ZipEntry)
    (hextra : e.extra = encodeBlocks blocks ++
      (encodeBlock SHA_256_HEADER_ID 2 [0x14, 0x95] ++ suffix))
    (hdir : e.isDir = false) :
    scanShaBlocks e.extra = .ok (some []) ∧
    buildShaMap (e :: es) =
      Except.map (fun r => ((symlinkOrWarn e).1 ++ r.1, (symlinkOrWarn e).2 ++ r.2))
        (buildShaMap es) := by
  have hscan : scanShaBlocks e.extra = .ok (some []) := by
    rw [hextra, scan_skip_blocks blocks hwf]
    simpa using scan_digest_block [] suffix (by decide)
  refine ⟨hscan, ?_⟩
  rw [buildShaMap_cons e es (some []) hdir hscan]
  rfl

theorem c9_empty_digest_stops_scan_witness :
    scanShaBlocks (encodeBlocks [(1, 0, [])] ++
        (encodeBlock SHA_256_HEADER_ID 2 [0x14, 0x95] ++
          encodeBlock SHA_256_HEADER_ID 34 ([0x14, 0x95] ++ List.replicate 32 1))) = .ok (some []) ∧
    buildShaMap [⟨"s", false, 0, encodeBlocks [(1, 0, [])] ++
        (encodeBlock SHA_256_HEADER_ID 2 [0x14, 0x95] ++
          encodeBlock SHA_256_HEADER_ID 34 ([0x14, 0x95] ++ List.replicate 32 1)), []⟩] =
      Except.map (fun r =>
          ((symlinkOrWarn ⟨"s", false, 0, encodeBlocks [(1, 0, [])] ++
            (encodeBlock SHA_256_HEADER_ID 2 [0x14, 0x95] ++
              encodeBlock SHA_256_HEADER_ID 34 ([0x14, 0x95] ++ List.replicate 32 1)), []⟩).1 ++ r.1,
           (symlinkOrWarn ⟨"s", false, 0, encodeBlocks [(1, 0, [])] ++
            (encodeBlock SHA_256_HEADER_ID 2 [0x14, 0x95] ++
              encodeBlock SHA_256_HEADER_ID 34 ([0x14, 0x95] ++ List.replicate 32 1)), []⟩).2 ++ r.2))
        (buildShaMap []) :=
  c9_empty_digest_stops_scan [(1, 0, [])] (by decide)
    (encodeBlock SHA_256_HEADER_ID 34 ([0x14, 0x95] ++ List.replicate 32 1))
    ⟨"s", false, 0, encodeBlocks [(1, 0, [])] ++
      (encodeBlock SHA_256_HEADER_ID 2 [0x14, 0x95] ++
        encodeBlock SHA_256_HEADER_ID 34 ([0x14, 0x95] ++ List.replicate 32 1)), []⟩
    [] rfl rfl

/-- C5 counterexample: an entry with empty extra field (parser returns
not-found), non-symlink mode 0o100644 and nonzero `external_attr` is
excluded from the map but produces no "sha not found" warning — the
warning list is empty, because the diagnostic is only printed in the
`else` branch taken when `external_attr == 0`. -/
theorem c5_silent_exclusion_no_warning :
    scanShaBlocks ([] : List Nat) = .ok none ∧
    S_ISLNK (entryMode 0x81A40000) = false ∧
    buildShaMap [⟨"f", false, 0x81A40000, [], []⟩] = .ok ([], []) :=
  ⟨rfl, by decide, by decide⟩

/-- C5 (amended): a non-directory entry for which the scan returns
not-found and whose mode is not a symlink is excluded from the map without
failing the rest of the build, but the data-quality warning is logged only
when the entry's `external_attr` is zero; with nonzero `external_attr` the
entry is excluded silently. -/
theorem c5_not_found_excluded_warn_iff_attr_zero (e : ZipEntry) (es : List ZipEntry)
    (hdir : e.isDir = false) (hscan : scanShaBlocks e.extra = .ok none)
    (hlnk : S_ISLNK (entryMode e.externalAttr) = false) :
    buildShaMap (e :: es) =
      Except.map (fun r => (r.1,
        (if e.externalAttr = 0 then [e.filename ++ " sha not found"] else []) ++ r.2))
        (buildShaMap es) := by
  rw [buildShaMap_cons e es none hdir hscan]
  have hcontrib : entryContrib e none
      = ([], if e.externalAttr = 0 then [e.filename ++ " sha not found"] else []) := by
    unfold entryContrib symlinkOrWarn
    by_cases hz : e.externalAttr = 0
    · simp [hz]
    · simp [hz, hlnk]
  rw [hcontrib]
  rcases h : buildShaMap es with u | ⟨m, w⟩
  · rfl
  · simp [h]

theorem c5_not_found_excluded_warn_iff_attr_zero_witness :
    buildShaMap [⟨"g", false, 0, [], []⟩]
      = Except.map (fun r => (r.1,
          (if (⟨"g", false, 0, [], []⟩ : ZipEntry).externalAttr = 0
            then [(⟨"g", false, 0, [], []⟩ : ZipEntry).filename ++ " sha not found"]
            else []) ++ r.2)) (buildShaMap []) :=
  c5_not_found_excluded_warn_iff_attr_zero ⟨"g", false, 0, [], []⟩ [] rfl (by decide) (by decide)

/-- C1 counterexample: product "a" builds successfully in soong-only mode
but its target-files artifact is absent, so `get_zip_sha_map` calls
`sys.exit` and the whole run aborts — product "b", whose soong-only build
failed, is never processed and never appears in any failure list of a
final summary. -/
theorem c1_artifact_missing_aborts_run :
    processProducts ⟨[], [], []⟩
      [⟨"a", .artifactMissing, .built [] []⟩, ⟨"b", .buildFailed, .built [] []⟩]
      = .error () := rfl

/-- C1 (amended): when no product hits a missing artifact, a build failure
on one product does not abort processing — every product is still
processed to the end (the loop completes with the summary obtained by
folding over all products) and each build failure of either variant is
recorded in the final summary.  An absent artifact where the build
producer claimed success, by contrast, exits the whole process. -/
theorem c1_no_artifact_missing_processes_all (rs : List ProductRun) (s₀ : RunSummary)
    (h : ∀ r ∈ rs, r.soongOnly ≠ .artifactMissing ∧ r.soongPlusMake ≠ .artifactMissing) :
    processProducts s₀ rs = .ok (rs.foldl processOnePure s₀) ∧
    ∀ r ∈ rs,
      (r.soongOnly = .buildFailed →
        r.product ∈ (rs.foldl processOnePure s₀).soongOnlyFailed) ∧
      (r.soongPlusMake = .buildFailed →
        r.product ∈ (rs.foldl processOnePure s₀).soongPlusMakeFailed) := by
  refine ⟨processProducts_ok rs s₀ h, ?_⟩
  intro r hr
  exact ⟨fun hbf => foldl_soFailed_mem rs s₀ r hr hbf,
         fun hbf => foldl_spmFailed_mem rs s₀ r hr hbf⟩

theorem c1_no_artifact_missing_processes_all_witness :
    processProducts ⟨[], [], []⟩ [⟨"b", .buildFailed, .built [] []⟩]
      = .ok ([⟨"b", .buildFailed, .built [] []⟩].foldl processOnePure ⟨[], [], []⟩) ∧
    "b" ∈ ([⟨"b", .buildFailed, .built [] []⟩].foldl processOnePure
        (⟨[], [], []⟩ : RunSummary)).soongOnlyFailed :=
  ⟨(c1_no_artifact_missing_processes_all [⟨"b", .buildFailed, .built [] []⟩] ⟨[], [], []⟩
      (by decide)).1,
   ((c1_no_artifact_missing_processes_all [⟨"b", .buildFailed, .built [] []⟩] ⟨[], [], []⟩
      (by decide)).2 ⟨"b", .buildFailed, .built [] []⟩ (by decide)).1 rfl⟩
